import Mathlib

/-!
# Verification of the geneparse core model

A shallow embedding of the geneparse library (Python) into Lean 4, together
with theorems settling a list of claims about its behaviour.

The embedding covers:
* `geneparse/core.py`: `Chromosome`, `Variant`, `Genotypes`, the allele
  encoding/complement helpers and the equality predicates;
* `geneparse/extractor.py`: the `Extractor` construction check and the
  variant-mode extraction loop with the opposite-strand retry;
* `geneparse/readers/impute2.py`: the duplicate marker renaming of
  `Impute2Reader.__init__` and `get_duplicated_markers`;
* `geneparse/index/impute2.py`: `_seek_generator`, `generate_index` and the
  index serialization round-trip;
* `geneparse/match_genotype_iterators.py`: the concurrent sorted merge-join,
  modelled as a deterministic function of the two (finite) input streams,
  the channels being the streams followed by the `None` end sentinel.

Python floats appearing in dosage vectors are modelled as `Option ℚ`
(`none` standing for NaN / missing): the code only ever compares dosages
for exact equality and computes `2 - dosage`, both of which this model
captures (`2 - NaN = NaN` becomes `Option.map` over `none`).
Python exceptions are modelled by `Option`/`none` results.
-/

namespace Geneparse

/-- Model of `Chromosome` from `geneparse/core.py`: a wrapper around a name string.
`"?"` is the unknown-chromosome sentinel (`UNKNOWN_CHROMOSOME`). -/
structure Chromosome where
  name : String
deriving Repr, DecidableEq

/-- Model of `Chromosome.__eq__`: the unknown chromosome (`"?"`) compares unequal to
everything (including itself); otherwise names are compared. -/
def Chromosome.ceq (a b : Chromosome) : Bool :=
  if a.name = "?" ∨ b.name = "?" then false else a.name == b.name

/-- The spellings accepted by `Variant._encode_chr` (`VALID_CHROMOSOMES`). -/
def VALID_CHROMOSOMES : List String :=
  (List.range 22).map (fun i => toString (i + 1)) ++ ["X", "Y", "XY", "MT"]

/-- Upper-casing of a string, character by character (Python's
`str.upper` on the ASCII allele strings handled here). -/
def strUpper (s : String) : String :=
  ⟨s.data.map Char.toUpper⟩

/-- Model of `Variant._encode_chr` restricted to string/None input: `None` maps to
the unknown sentinel, strings are upper-cased, a leading `CHR` is stripped,
and anything not in `VALID_CHROMOSOMES` raises `InvalidChromosome`
(modelled as `none`).  An already-constructed `Chromosome` is accepted
as-is by the Python code; that path is the plain identity here. -/
def encodeChr (chrom : Option String) : Option Chromosome :=
  match chrom with
  | none => some ⟨"?"⟩
  | some s =>
    let s := strUpper s
    let s := if s.startsWith ("CHR") then s.drop 3 else s
    if s ∈ VALID_CHROMOSOMES then some ⟨s⟩ else none

/-- Lexicographic (code-point) comparison of two character lists, the
order Python's `sorted` uses on strings. -/
def charsLe : List Char → List Char → Bool
  | [], _ => true
  | _ :: _, [] => false
  | a :: as, b :: bs =>
    if a.toNat < b.toNat then true
    else if b.toNat < a.toNat then false
    else charsLe as bs

/-- Insertion of a string into a (lexicographically) sorted list. -/
def insertAllele (a : String) : List String → List String
  | [] => [a]
  | b :: bs => if charsLe a.data b.data then a :: b :: bs else b :: insertAllele a bs

/-- Lexicographic insertion sort on strings, modelling Python's `sorted`. -/
def sortAlleles : List String → List String
  | [] => []
  | a :: as => insertAllele a (sortAlleles as)

/-- Model of `Variant._encode_alleles`: `None` is kept, otherwise every allele is
upper-cased and the collection is sorted into a tuple.  (Note: the Python
code does **not** de-duplicate.) -/
def encodeAlleles (alleles : Option (List String)) : Option (List String) :=
  alleles.map (fun l => sortAlleles (l.map strUpper))

/-- Model of `Variant` from `geneparse/core.py`. -/
structure Variant where
  name : Option String
  chrom : Chromosome
  pos : Int
  alleles : Option (List String)
deriving Repr, DecidableEq

/-- The `Variant` constructor, on the code path where `chrom` is already a
`Chromosome` instance (accepted as-is): the alleles get encoded. -/
def Variant.make (name : Option String) (chrom : Chromosome) (pos : Int)
    (alleles : Option (List String)) : Variant :=
  ⟨name, chrom, pos, encodeAlleles alleles⟩

/-- The `Variant` constructor on the string/None chromosome path
(`_encode_chr` may raise `InvalidChromosome`). -/
def Variant.ofRaw (name : Option String) (chrom : Option String) (pos : Int)
    (alleles : Option (List String)) : Option Variant :=
  (encodeChr chrom).map (fun c => Variant.make name c pos alleles)

/-- Model of `Variant.primitive_locus_eq` / `locus_eq`: chromosome equality (through
`Chromosome.__eq__`) and position equality. -/
def Variant.locusEq (a b : Variant) : Bool :=
  Chromosome.ceq a.chrom b.chrom && a.pos == b.pos

/-- Model of `Variant.alleles_ambiguous`: exactly the encoded pairs `("C","G")` and
`("A","T")`. -/
def Variant.allelesAmbiguous (v : Variant) : Bool :=
  v.alleles == some ["C", "G"] || v.alleles == some ["A", "T"]

/-- Model of `Variant.__eq__`: locus equality; when either side has unspecified
alleles that is the whole test, otherwise the two allele sets must share
at least two alleles. -/
def Variant.veq (a b : Variant) : Bool :=
  let locusMatch := a.locusEq b
  match a.alleles, b.alleles with
  | none, _ => locusMatch
  | _, none => locusMatch
  | some as, some bs =>
    locusMatch && decide (2 ≤ (as.toFinset ∩ bs.toFinset).card)

/-- Model of `Variant.__hash__` hashes the tuple `(chrom, pos, alleles)`; the model
keeps the tuple itself (the hash input), so two variants "hash equal"
exactly when their tuples agree. -/
def Variant.hashKey (v : Variant) : String × Int × Option (List String) :=
  (v.chrom.name, v.pos, v.alleles)

/-- The per-character translation table of `complement_alleles`
(`A<->T`, `G<->C`, both cases; anything else left as-is). -/
def complementChar (c : Char) : Char :=
  if c = 'A' then 'T'
  else if c = 'T' then 'A'
  else if c = 'G' then 'C'
  else if c = 'C' then 'G'
  else if c = 'a' then 't'
  else if c = 't' then 'a'
  else if c = 'g' then 'c'
  else if c = 'c' then 'g'
  else c

/-- Model of `complement_alleles` from `geneparse/core.py`: translate every
character and reverse the string. -/
def complement_alleles (s : String) : String :=
  ⟨(s.data.map complementChar).reverse⟩

/-- Model of `Variant.complementary_strand_copy`: complement every allele and build
a fresh `Variant` (re-encoding the alleles).  When `alleles` is `None` the
Python code iterates over `None` and raises `TypeError`, modelled as
`none`. -/
def Variant.complementaryStrandCopy (v : Variant) : Option Variant :=
  v.alleles.map (fun as =>
    Variant.make v.name v.chrom v.pos (some (as.map complement_alleles)))

/-- A dosage value: `some q` for a real dosage, `none` for NaN/missing. -/
abbrev Dosage := Option ℚ

/-- Model of `Genotypes` from `geneparse/core.py`. -/
structure Genotypes where
  variant : Variant
  genotypes : List Dosage
  reference : String
  coded : String
  multiallelic : Bool
deriving Repr, DecidableEq

/-- The `Genotypes` constructor: upper-cases `reference` and `coded` and,
when the variant carries a (non-empty) allele tuple, raises `ValueError`
(modelled as `none`) if either is not among the variant's alleles. -/
def Genotypes.make (variant : Variant) (genotypes : List Dosage)
    (reference coded : String) (multiallelic : Bool) : Option Genotypes :=
  let reference := strUpper reference
  let coded := strUpper coded
  let ok := fun (a : String) =>
    match variant.alleles with
    | none => true
    | some [] => true
    | some as => a ∈ as
  if ok reference && ok coded then
    some ⟨variant, genotypes, reference, coded, multiallelic⟩
  else none

/-- Model of `_np_eq` from `geneparse/core.py`: the NaN masks must agree and the
non-NaN entries must be equal. -/
def np_eq (a b : List Dosage) : Bool :=
  a.length == b.length &&
  (a.zip b).all (fun p =>
    match p.1, p.2 with
    | none, none => true
    | some x, some y => x == y
    | _, _ => false)

/-- Model of `2 - genotypes` on a dosage vector (`2 - NaN = NaN`). -/
def dosageTwoMinus (a : List Dosage) : List Dosage :=
  a.map (Option.map (fun x => 2 - x))

/-- Model of `Genotypes.__eq__`: different locus is `False`; same reference/coded
compares the dosage vectors; swapped reference/coded compares against
`2 - other`; anything else raises `RuntimeError` (modelled as `none`). -/
def Genotypes.geq (a b : Genotypes) : Option Bool :=
  if ¬ (a.variant.locusEq b.variant = true) then some false
  else if a.reference = b.reference ∧ a.coded = b.coded then
    some (np_eq a.genotypes b.genotypes)
  else if a.reference = b.coded ∧ a.coded = b.reference then
    some (np_eq a.genotypes (dosageTwoMinus b.genotypes))
  else none

/-! ## Extractor (`geneparse/extractor.py`) -/

/-- The state kept by a successfully constructed `Extractor` (besides the
parser): the `names` and `variants` arguments. -/
structure Extractor where
  names : Option (List String)
  variants : Option (List Variant)
deriving Repr, DecidableEq

/-- Model of `Extractor.__init__`: raises `ValueError` (modelled as `none`) exactly
when both `names` and `variants` are `None`. -/
def Extractor.init (names : Option (List String))
    (variants : Option (List Variant)) : Option Extractor :=
  match names, variants with
  | none, none => none
  | _, _ => some ⟨names, variants⟩

/-- The strand-flip rewrite applied by `Extractor.iter_genotypes` to a hit
coming from the complementary-strand query: the variant field is set to
the originally requested variant and reference/coded are complemented
(plain attribute assignments in Python — no re-validation). -/
def flipHit (requested : Variant) (g : Genotypes) : Genotypes :=
  { g with
    variant := requested
    reference := complement_alleles g.reference
    coded := complement_alleles g.coded }

/-- One iteration of the variant-mode loop of `Extractor.iter_genotypes`:
query the parser directly; on an empty result for a non-ambiguous variant,
query the complementary-strand copy and rewrite each hit with `flipHit`.
`query` stands for `parser.get_variant_genotypes` (logging suppressed).
`none` models the `TypeError` raised by `complementary_strand_copy` when
the variant has no alleles. -/
def extractOneVariant (query : Variant → List Genotypes) (v : Variant) :
    Option (List Genotypes) :=
  let hits := query v
  if hits.isEmpty && !v.allelesAmbiguous then
    match v.complementaryStrandCopy with
    | none => none
    | some comp => some ((query comp).map (flipHit v))
  else
    some hits

/-- The whole variant-mode `Extractor.iter_genotypes`: concatenation of
the per-variant results, the first raised exception aborting the
generator. -/
def iterGenotypesByVariants (query : Variant → List Genotypes) :
    List Variant → Option (List Genotypes)
  | [] => some []
  | v :: rest => do
    let hits ← extractOneVariant query v
    let tail ← iterGenotypesByVariants query rest
    pure (hits ++ tail)

/-! ## Duplicate marker renaming (`geneparse/readers/impute2.py`) -/

/-- The renaming pass of `Impute2Reader.__init__` over the index's `name`
column.  `allNames` is the full column (used for the pandas
`duplicated(keep=False)` mask: a name is duplicated when it occurs at
least twice in the whole column), `seen` the names already traversed
(most recent first), so `seen.count n + 1` is the running `Counter` value
at the current occurrence. -/
def renameGo (allNames seen : List String) : List String → List String
  | [] => []
  | n :: rest =>
    (if 2 ≤ allNames.count n
     then n ++ ":dup" ++ toString (seen.count n + 1)
     else n) :: renameGo allNames (n :: seen) rest

/-- The renamed `name` column after `Impute2Reader.__init__`. -/
def renameDuplicatedNames (names : List String) : List String :=
  renameGo names [] names

/-- The `_dup_markers` entry for marker `m`: the new names appended, in
first-appearance order, for each occurrence of `m` (in the source each
occurrence's `new_name` is both written into the index row and appended
to `_dup_markers[m]`). -/
def dupEntriesOf (names : List String) (m : String) : List String :=
  ((names.zip (renameDuplicatedNames names)).filter
    (fun p => p.1 == m)).map Prod.snd

/-- Model of `Impute2Reader.get_duplicated_markers`, viewed as the lookup function
of the returned dict: an empty result when `m` was not duplicated. -/
def getDuplicatedMarkers (names : List String) (m : String) : List String :=
  if 2 ≤ names.count m then dupEntriesOf names m else []

/-! ## Flat-file index (`geneparse/index/impute2.py`)

A line-oriented file is modelled as the list of its lines, each line a
`List Char` not containing the terminator `'\n'`; on disk every line is
followed by the terminator.  Stream positions count characters. -/

/-- The line terminator. -/
def NL : Char := '\n'

/-- The on-disk content of a line-oriented file. -/
def fileContent (lines : List (List Char)) : List Char :=
  (lines.map (fun l => l ++ [NL])).flatten

/-- The lengths consumed by reading each line (content plus terminator). -/
def lineLens (lines : List (List Char)) : List Nat :=
  lines.map (fun l => l.length + 1)

/-- Model of `_seek_generator`: yields 0, then the stream position after consuming
each line, as a function of the starting position and the per-line
lengths (N+1 values for N lines). -/
def seekGen (pos : Nat) : List Nat → List Nat
  | [] => [pos]
  | n :: ns => pos :: seekGen (pos + n) ns

/-- The `seek` column built by `generate_index`: the `_seek_generator`
stream with its trailing sentinel dropped (`[:-1]`). -/
def generateIndexOffsets (lines : List (List Char)) : List Nat :=
  (seekGen 0 (lineLens lines)).dropLast

/-- Model of `f.seek(p)` followed by `f.readline()`, the terminator stripped. -/
def readLineAt (content : List Char) (p : Nat) : List Char :=
  (content.drop p).takeWhile (fun c => c != NL)

/-- Model of `_CHECK_STRING = b"GENIPE INDEX FILE"`, as byte values. -/
def INDEX_MAGIC : List Nat := "GENIPE INDEX FILE".data.map Char.toNat

/-- The byte separating two serialized offsets (`','` of the CSV). -/
def SEP : Nat := 44

/-- Little-endian decimal digits of `n` (fuel-based so that it reduces
definitionally); `toDecDigits` below supplies enough fuel. -/
def toDigitsAux : Nat → Nat → List Nat
  | _, 0 => []
  | 0, _ => []
  | fuel + 1, n + 1 => ((n + 1) % 10) :: toDigitsAux fuel ((n + 1) / 10)

/-- The decimal digits of an offset as written to the index file. -/
def toDecDigits (n : Nat) : List Nat := toDigitsAux n n

/-- Recombine decimal digits into the offset they encode. -/
def ofDecDigits : List Nat → Nat
  | [] => 0
  | d :: ds => d + 10 * ofDecDigits ds

/-- Join chunks with a separator byte (the serialized CSV column). -/
def joinSep (sep : Nat) : List (List Nat) → List Nat
  | [] => []
  | [c] => c
  | c :: cs => c ++ sep :: joinSep sep cs

/-- Split a byte list back into separator-free chunks. -/
def splitSep (sep : Nat) : List Nat → List (List Nat)
  | [] => [[]]
  | b :: bs =>
    let r := splitSep sep bs
    if b = sep then [] :: r else (b :: r.headD []) :: r.tail

/-- Model of `write_index`: the magic check-string followed by the serialized
`seek` column (the zlib compression, assumed faithful, is external). -/
def writeIndex (offsets : List Nat) : List Nat :=
  INDEX_MAGIC ++ joinSep SEP (offsets.map toDecDigits)

/-- Model of `read_index`: validate the magic string (`none` models the
"not a valid index file" `ValueError`), then decode the payload. -/
def readIndex (bytes : List Nat) : Option (List Nat) :=
  if INDEX_MAGIC.isPrefixOf bytes then
    some ((splitSep SEP (bytes.drop INDEX_MAGIC.length)).map ofDecDigits)
  else none

/-! ## Concurrent merge-join (`geneparse/match_genotype_iterators.py`)

Each worker process pushes its stream's records, then the `None`
sentinel, into its queue; the consumer loop is deterministic in the two
streams, so the whole generator is modelled as a pure function of them.
A channel is a `List (Option Genotypes)`; `none` is the sentinel.
A `none` overall result models an exception escaping the generator body
(in which case the final `p.join()` loop is never reached). -/

/-- Decimal parse of a chromosome name (the `int(chrom)` call of
`chrom_to_int`, for the non-negative spellings chromosome names use):
`none` when the name is empty or has a non-digit character. -/
def parseChromNat (s : String) : Option Nat :=
  if s.data ≠ [] ∧ s.data.all (fun c => c.isDigit) then
    some (s.data.foldl (fun acc c => 10 * acc + (c.toNat - 48)) 0)
  else none

/-- Model of `chrom_to_int`: parse the chromosome name as an integer, else map the
sex/mito spellings; anything else raises `ValueError` (`none`). -/
def chromToInt (c : Chromosome) : Option Nat :=
  match parseChromNat c.name with
  | some n => some n
  | none =>
    if c.name = "X" then some 23
    else if c.name = "Y" then some 24
    else if c.name = "XY" then some 25
    else if c.name = "MT" then some 26
    else none

/-- Model of `default_chr_comparator` (note the descending convention: the smaller
chromosome compares as `1`). -/
def defaultChrComparator (a b : Chromosome) : Option Int :=
  match chromToInt a, chromToInt b with
  | some x, some y => some (if x = y then 0 else if x < y then 1 else -1)
  | _, _ => none

/-- Model of `compare_variants` with the default comparator: `0` for equal
variants, otherwise order by chromosome then (descending) by position;
`none` when the comparator raises. -/
def compareVariants (a b : Variant) : Option Int :=
  if Variant.veq a b then some 0
  else
    match defaultChrComparator a.chrom b.chrom with
    | none => none
    | some chromOrder =>
      if chromOrder ≠ 0 then some chromOrder
      else if a.pos = b.pos then some 0
      else if a.pos < b.pos then some 1
      else some (-1)

/-- The consumer loop of `match_genotype_iterators`, split into the
phases of one outer-loop iteration: phase 2 is the first inner `while`
(advance B while the comparison is `-1`), phase 1 the second inner
`while` (advance A while it is `1`), phase 0 the trailing match/advance
step.  `curA`/`curB` are the current (non-`None`) records, `qa`/`qb` the
unread channel contents.  `some pairs` means the loop ended and the
workers were joined; `none` models an exception (comparator failure, or
a `get` on a channel past its sentinel) skipping the `join` loop. -/
def mergePhases (phase : Nat) (curA curB : Genotypes)
    (qa qb : List (Option Genotypes)) :
    Option (List (Genotypes × Genotypes)) :=
  if phase = 2 then
    (compareVariants curA.variant curB.variant).bind (fun c =>
      if c = -1 then
        match qb with
        | [] => none
        | none :: _ => some []
        | some b :: qb' => mergePhases 2 curA b qa qb'
      else mergePhases 1 curA curB qa qb)
  else if phase = 1 then
    (compareVariants curA.variant curB.variant).bind (fun c =>
      if c = 1 then
        match qa with
        | [] => none
        | none :: _ => some []
        | some a :: qa' => mergePhases 1 a curB qa' qb
      else mergePhases 0 curA curB qa qb)
  else
    if Variant.veq curA.variant curB.variant then
      match qa, qb with
      | some a :: qa', some b :: qb' =>
        (mergePhases 2 a b qa' qb').map (fun r => (curA, curB) :: r)
      | none :: _, _ :: _ => some [(curA, curB)]
      | _ :: _, none :: _ => some [(curA, curB)]
      | _, _ => none
    else
      match qa with
      | [] => none
      | none :: _ => some []
      | some a :: qa' => mergePhases 2 a curB qa' qb
termination_by (qa.length + qb.length, phase)
decreasing_by all_goals (simp_wf; omega)

/-- Model of `match_genotype_iterators` as a function of the two finite streams:
the initial two `get`s fetch the heads; when either stream is empty the
first `compare_variants(cur_a.variant, cur_b.variant)` dereferences
`None` and the generator dies with `AttributeError` (modelled `none`)
before reaching the `join` loop. -/
def matchGenotypeIterators (sa sb : List Genotypes) :
    Option (List (Genotypes × Genotypes)) :=
  match sa, sb with
  | a :: sa', b :: sb' =>
    mergePhases 2 a b (sa'.map some ++ [none]) (sb'.map some ++ [none])
  | _, _ => none

/-! ## Concrete sample data (used by witnesses) -/

/-- A requested biallelic A/C variant at chr1:100. -/
def requestedVariant : Variant :=
  Variant.make (some ("rs1")) ⟨"1"⟩ 100 (some ["A", "C"])

/-- The complementary-strand copy of `requestedVariant` (G/T). -/
def complementedVariant : Variant :=
  Variant.make (some ("rs1")) ⟨"1"⟩ 100 (some ["G", "T"])

/-- A record stored on the opposite strand of `requestedVariant`. -/
def storedGenotypes : Genotypes :=
  ⟨complementedVariant, [some 1, none], "G", "T", false⟩

/-- A reader holding only the opposite-strand record: its
`get_variant_genotypes` answers the G/T query and nothing else. -/
def storedQuery : Variant → List Genotypes :=
  fun u => if u.alleles == some ["G", "T"] then [storedGenotypes] else []

/-- A genotype record at chr1:100 with reference A / coded C. -/
def sampleGenoAC : Genotypes :=
  ⟨requestedVariant, [some 0, none], "A", "C", false⟩

/-- The same locus with reference and coded swapped (C/A). -/
def sampleGenoCA : Genotypes :=
  ⟨requestedVariant, [some 2, none], "C", "A", false⟩

/-- A record at a different locus (chr2:100). -/
def sampleGenoOtherLocus : Genotypes :=
  ⟨Variant.make none ⟨"2"⟩ 100 (some ["A", "C"]), [some 0, none], "A", "C", false⟩

/-- A record at the same locus whose alleles neither match nor swap
(multiallelic A/C/G site coded on G). -/
def sampleGenoMismatch : Genotypes :=
  ⟨Variant.make none ⟨"1"⟩ 100 (some ["A", "C", "G"]), [some 0, none], "A", "G", false⟩

/-! ## Helper lemmas -/

theorem mem_insertAllele {a x : String} {l : List String} :
    a ∈ insertAllele x l ↔ a = x ∨ a ∈ l := by
  induction l with
  | nil => simp [insertAllele]
  | cons b bs ih =>
    unfold insertAllele
    split
    · simp
    · simp only [List.mem_cons, ih]
      tauto

theorem toFinset_sortAlleles (l : List String) :
    (sortAlleles l).toFinset = l.toFinset := by
  induction l with
  | nil => rfl
  | cons a as ih =>
    ext x
    simp only [sortAlleles, List.mem_toFinset, mem_insertAllele, List.mem_cons]
    rw [← List.mem_toFinset (l := sortAlleles as), ih]
    simp

/-! ## Claims -/

/-- C1, as stated, fails on the code: (i) a variant with a single allele
is not even equal to an identically constructed copy (the allele-overlap
rule wants two shared alleles); (ii) two identically constructed variants
on the unknown chromosome are never equal; (iii) the constructor does not
de-duplicate alleles. -/
theorem C1_counterexample :
    Variant.veq (Variant.make (some ("rs1")) ⟨"1"⟩ 100 (some ["A"]))
      (Variant.make (some ("rs1")) ⟨"1"⟩ 100 (some ["A"])) = false ∧
    Variant.veq (Variant.make none ⟨"?"⟩ 100 (some ["A", "C"]))
      (Variant.make none ⟨"?"⟩ 100 (some ["C", "A"])) = false ∧
    encodeAlleles (some ["A", "A", "C"]) ≠ some ["A", "C"] := by
  refine ⟨by decide, by decide, by decide⟩

/-- C1 (amended): two Variants built at the same position on the same
known (non-`"?"`) chromosome, from allele collections that denote the
same set of at least two distinct alleles (after upper-casing, in any
input order, duplicates allowed), compare equal under `Variant.__eq__`. -/
theorem C1_variant_eq_of_same_allele_set
    (n1 n2 : Option String) (c : Chromosome) (p : Int) (a1 a2 : List String)
    (hc : c.name ≠ "?")
    (hset : (a1.map strUpper).toFinset = (a2.map strUpper).toFinset)
    (hcard : 2 ≤ (a1.map strUpper).toFinset.card) :
    Variant.veq (Variant.make n1 c p (some a1))
      (Variant.make n2 c p (some a2)) = true := by
  have hfin : (sortAlleles (a1.map strUpper)).toFinset ∩
      (sortAlleles (a2.map strUpper)).toFinset =
      (a1.map strUpper).toFinset := by
    rw [toFinset_sortAlleles, toFinset_sortAlleles, hset, Finset.inter_self]
  simp only [Variant.veq, Variant.make, encodeAlleles, Option.map_some',
    Variant.locusEq, Chromosome.ceq]
  simp [hc, hfin, hcard]

/-- Witness for C1 (amended): mixed case and duplicated input alleles in
different orders still give equal variants. -/
theorem C1_variant_eq_witness :
    Variant.veq (Variant.make none ⟨"1"⟩ 100 (some ["c", "a"]))
      (Variant.make none ⟨"1"⟩ 100 (some ["A", "C", "A"])) = true :=
  C1_variant_eq_of_same_allele_set none none ⟨"1"⟩ 100 ["c", "a"] ["A", "C", "A"]
    (by decide) (by decide) (by decide)

/-- C2, as stated, fails on the code: supplying both `names` and
`variants` is accepted (no construction-time error), and so is an empty
`names` collection with no `variants` (the check is `is None`, not
emptiness). -/
theorem C2_counterexample :
    (Extractor.init (some ["rs1"]) (some [requestedVariant])).isSome = true ∧
    (Extractor.init (some []) none).isSome = true :=
  ⟨rfl, rfl⟩

/-- C2 (amended): `Extractor` construction succeeds exactly when at least
one of `names` or `variants` is supplied (not `None`), regardless of
emptiness; only supplying neither raises. -/
theorem C2_extractor_init (names : Option (List String))
    (variants : Option (List Variant)) :
    (Extractor.init names variants).isSome = (names.isSome || variants.isSome) := by
  cases names <;> cases variants <;> rfl

/-- C3: when the direct query for a non-ambiguous variant is empty and
the complementary-strand query is used, the extractor yields exactly the
stored hits rewritten by `flipHit`, which sets the variant field to the
originally requested variant, complements the reference and coded labels,
and leaves the dosage vector untouched. -/
theorem C3_strand_flip_rewrite (query : Variant → List Genotypes)
    (v comp : Variant) (hq : query v = [])
    (hna : v.allelesAmbiguous = false)
    (hc : v.complementaryStrandCopy = some comp) :
    extractOneVariant query v = some ((query comp).map (flipHit v)) ∧
    ∀ g : Genotypes, (flipHit v g).variant = v ∧
      (flipHit v g).reference = complement_alleles g.reference ∧
      (flipHit v g).coded = complement_alleles g.coded ∧
      (flipHit v g).genotypes = g.genotypes := by
  constructor
  · simp [extractOneVariant, hq, hna, hc]
  · intro g
    exact ⟨rfl, rfl, rfl, rfl⟩

/-- Witness for C3: requesting A/C against a reader that only stores the
G/T record returns the strand-rewritten record. -/
theorem C3_witness :
    extractOneVariant storedQuery requestedVariant =
      some ((storedQuery complementedVariant).map (flipHit requestedVariant)) :=
  (C3_strand_flip_rewrite storedQuery requestedVariant complementedVariant
    (by decide) (by decide) (by decide)).1

/-- C4: an ambiguous-allele variant absent from the reader yields an
empty result, whatever the opposite-strand query would have returned (the
retry is never attempted), and no exception is raised. -/
theorem C4_ambiguous_no_retry (query : Variant → List Genotypes)
    (v : Variant) (hq : query v = []) (ha : v.allelesAmbiguous = true) :
    extractOneVariant query v = some [] := by
  simp [extractOneVariant, hq, ha]

/-- Witness for C4: an absent A/T variant extracts to an empty result. -/
theorem C4_witness :
    extractOneVariant (fun _ => [])
      (Variant.make none ⟨"1"⟩ 100 (some ["A", "T"])) = some [] :=
  C4_ambiguous_no_retry (fun _ => []) _ rfl (by decide)

/-- C5: `Genotypes.__eq__` returns `False` (no error) at different loci;
with reference/coded swapped it compares one dosage vector against
`2 -` the other (NaN positions equal); when the allele labels neither
match nor swap it raises `RuntimeError` instead of returning a boolean. -/
theorem C5_genotypes_eq (a b : Genotypes) :
    (a.variant.locusEq b.variant = false → Genotypes.geq a b = some false) ∧
    (a.variant.locusEq b.variant = true → a.reference = b.coded →
      a.coded = b.reference → a.reference ≠ a.coded →
      Genotypes.geq a b = some (np_eq a.genotypes (dosageTwoMinus b.genotypes))) ∧
    (a.variant.locusEq b.variant = true →
      ¬(a.reference = b.reference ∧ a.coded = b.coded) →
      ¬(a.reference = b.coded ∧ a.coded = b.reference) →
      Genotypes.geq a b = none) := by
  refine ⟨?_, ?_, ?_⟩
  · intro h
    simp [Genotypes.geq, h]
  · intro h h1 h2 hne
    have hnd : ¬(a.reference = b.reference ∧ a.coded = b.coded) := by
      rintro ⟨e1, e2⟩
      exact hne (h1.trans e2.symm)
    unfold Genotypes.geq
    rw [if_neg (by simp [h]), if_neg hnd, if_pos ⟨h1, h2⟩]
  · intro h hnd hns
    unfold Genotypes.geq
    rw [if_neg (by simp [h]), if_neg hnd, if_neg hns]

/-- Witness for C5: the three behaviours at concrete records — swapped
labels compare against `2 - dosage`, a different locus compares `False`,
and mismatched labels raise. -/
theorem C5_witness :
    Genotypes.geq sampleGenoAC sampleGenoCA =
      some (np_eq sampleGenoAC.genotypes (dosageTwoMinus sampleGenoCA.genotypes)) ∧
    Genotypes.geq sampleGenoAC sampleGenoOtherLocus = some false ∧
    Genotypes.geq sampleGenoAC sampleGenoMismatch = none :=
  ⟨(C5_genotypes_eq sampleGenoAC sampleGenoCA).2.1 (by decide) rfl rfl (by decide),
   (C5_genotypes_eq sampleGenoAC sampleGenoOtherLocus).1 (by decide),
   (C5_genotypes_eq sampleGenoAC sampleGenoMismatch).2.2 (by decide)
     (by decide) (by decide)⟩

/-- C9: the hash input is exactly the `(chrom, pos, alleles)` triple —
identical triples hash alike whatever the names — while equality accepts
partial allele overlap, so there are equal variants with different allele
tuples and hence different hash inputs. -/
theorem C9_hash_coarser_than_eq :
    (∀ v1 v2 : Variant, v1.chrom = v2.chrom → v1.pos = v2.pos →
      v1.alleles = v2.alleles → v1.hashKey = v2.hashKey) ∧
    (∃ v1 v2 : Variant, Variant.veq v1 v2 = true ∧
      v1.alleles ≠ v2.alleles ∧ v1.hashKey ≠ v2.hashKey) := by
  constructor
  · intro v1 v2 h1 h2 h3
    simp [Variant.hashKey, h1, h2, h3]
  · exact ⟨Variant.make (some ("a")) ⟨"1"⟩ 100 (some ["A", "C"]),
      Variant.make (some ("b")) ⟨"1"⟩ 100 (some ["A", "C", "G"]),
      by decide, by decide, by decide⟩

/-- Witness for C9: two differently named variants with the same triple
share the hash input. -/
theorem C9_witness :
    (Variant.make (some ("x")) ⟨"2"⟩ 5 (some ["A", "C"])).hashKey =
      (Variant.make (some ("y")) ⟨"2"⟩ 5 (some ["A", "C"])).hashKey :=
  C9_hash_coarser_than_eq.1 _ _ rfl rfl rfl

/-- C10: a wildcard-allele variant is not ambiguous, its
complementary-strand copy raises `TypeError`, and extracting it when the
reader has no direct hit propagates that exception instead of yielding an
empty result. -/
theorem C10_wildcard_raises (v : Variant) (query : Variant → List Genotypes)
    (hv : v.alleles = none) (hq : query v = []) :
    v.allelesAmbiguous = false ∧
    v.complementaryStrandCopy = none ∧
    extractOneVariant query v = none ∧
    iterGenotypesByVariants query [v] = none := by
  refine ⟨?_, ?_, ?_, ?_⟩
  · simp [Variant.allelesAmbiguous, hv]
  · simp [Variant.complementaryStrandCopy, hv]
  · simp [extractOneVariant, hq, Variant.allelesAmbiguous,
      Variant.complementaryStrandCopy, hv]
  · simp [iterGenotypesByVariants, extractOneVariant, hq,
      Variant.allelesAmbiguous, Variant.complementaryStrandCopy, hv]

/-- Witness for C10: a concrete wildcard variant against an empty reader. -/
theorem C10_witness :
    (Variant.make none ⟨"1"⟩ 100 none).allelesAmbiguous = false ∧
    (Variant.make none ⟨"1"⟩ 100 none).complementaryStrandCopy = none ∧
    extractOneVariant (fun _ => []) (Variant.make none ⟨"1"⟩ 100 none) = none ∧
    iterGenotypesByVariants (fun _ => [])
      [Variant.make none ⟨"1"⟩ 100 none] = none :=
  C10_wildcard_raises (Variant.make none ⟨"1"⟩ 100 none) (fun _ => []) rfl rfl

theorem renameGo_spec (all : List String) (m : String) (hm : 2 ≤ all.count m) :
    ∀ (rest seen : List String),
    ((rest.zip (renameGo all seen rest)).filter (fun p => p.1 == m)).map Prod.snd =
      (List.range (rest.count m)).map
        (fun i => m ++ ":dup" ++ toString (seen.count m + i + 1)) := by
  intro rest
  induction rest with
  | nil =>
    intro seen
    rfl
  | cons n rest ih =>
    intro seen
    rw [renameGo]
    by_cases hn : n = m
    · subst hn
      rw [if_pos hm]
      simp only [List.zip_cons_cons, List.filter_cons, beq_self_eq_true,
        if_true, List.map_cons, List.count_cons_self, List.range_succ_eq_map,
        List.map_map, ih (n :: seen), List.count_cons_self]
      refine congrArg₂ List.cons (by norm_num) (List.map_congr_left ?_)
      intro i _
      simp only [Function.comp_apply]
      have harith : List.count n seen + 1 + i + 1 = List.count n seen + (i + 1) + 1 := by
        omega
      rw [harith]
    · have hb : ((n, (if 2 ≤ all.count n
          then n ++ ":dup" ++ toString (seen.count n + 1) else n)).1 == m) = false := by
        simp [hn]
      simp only [List.zip_cons_cons, List.filter_cons, hb, Bool.false_eq_true,
        if_false, ih (n :: seen)]
      have hseen : (n :: seen).count m = seen.count m :=
        List.count_cons_of_ne (fun h => hn h.symm) seen
      have hrest : (n :: rest).count m = rest.count m :=
        List.count_cons_of_ne (fun h => hn h.symm) rest
      rw [hseen, hrest]

theorem dupEntriesOf_eq (names : List String) (m : String)
    (hm : 2 ≤ names.count m) :
    dupEntriesOf names m =
      (List.range (names.count m)).map
        (fun i => m ++ ":dup" ++ toString (i + 1)) := by
  have h := renameGo_spec names m hm names []
  simpa [dupEntriesOf, renameDuplicatedNames] using h

theorem dupEntriesOf_mem {names : List String} {m e : String}
    (he : e ∈ dupEntriesOf names m) : e ∈ renameDuplicatedNames names := by
  unfold dupEntriesOf at he
  obtain ⟨⟨x, y⟩, hmem, rfl⟩ := List.mem_map.1 he
  exact (List.of_mem_zip (List.mem_filter.1 hmem).1).2

/-- C6 (amended): when a marker name occurs k ≥ 2 times in the index, its
occurrences are renamed in first-appearance order to `name:dup1` …
`name:dupk` (the first occurrence does **not** keep the plain name), and
`get_duplicated_markers` maps the original name to exactly those k
renamed entries, each of which is present in the renamed index, so a
name-based query for the original name resolves every copy. -/
theorem C6_duplicate_renaming (names : List String) (m : String)
    (hm : 2 ≤ names.count m) :
    getDuplicatedMarkers names m =
      (List.range (names.count m)).map
        (fun i => m ++ ":dup" ++ toString (i + 1)) ∧
    (getDuplicatedMarkers names m).length = names.count m ∧
    ∀ e ∈ getDuplicatedMarkers names m, e ∈ renameDuplicatedNames names := by
  have hd : getDuplicatedMarkers names m = dupEntriesOf names m := by
    simp [getDuplicatedMarkers, hm]
  refine ⟨hd.trans (dupEntriesOf_eq names m hm), ?_, ?_⟩
  · rw [hd, dupEntriesOf_eq names m hm]
    simp
  · intro e he
    rw [hd] at he
    exact dupEntriesOf_mem he

/-- C6, as stated, fails on the code: with two occurrences of `m` the
renamed column is `["m:dup1", "m:dup2"]` — the first occurrence does not
keep the plain name `m`, contrary to the claimed
`name, name:dup1, name:dup2, …` scheme. -/
theorem C6_counterexample :
    renameDuplicatedNames ["m", "m"] = ["m:dup1", "m:dup2"] ∧
    ¬ ("m" ∈ renameDuplicatedNames ["m", "m"]) := by
  exact ⟨by decide, by decide⟩

/-- Witness for C6 (amended): a name occurring three times maps to its
three `:dup` entries. -/
theorem C6_witness :
    getDuplicatedMarkers ["m", "x", "m", "m"] ("m") =
      (List.range ((["m", "x", "m", "m"] : List String).count ("m"))).map
        (fun i => "m" ++ ":dup" ++ toString (i + 1)) ∧
    (getDuplicatedMarkers ["m", "x", "m", "m"] ("m")).length =
      (["m", "x", "m", "m"] : List String).count ("m") :=
  ⟨(C6_duplicate_renaming ["m", "x", "m", "m"] ("m") (by decide)).1,
   (C6_duplicate_renaming ["m", "x", "m", "m"] ("m") (by decide)).2.1⟩

theorem seekGen_eq_map (ns : List Nat) :
    ∀ p : Nat, seekGen p ns =
      (List.range (ns.length + 1)).map (fun i => p + (ns.take i).sum) := by
  induction ns with
  | nil =>
    intro p
    simp [seekGen]
  | cons n ns ih =>
    intro p
    rw [seekGen, ih (p + n)]
    have hr : List.range (ns.length + 1 + 1) =
        0 :: (List.range (ns.length + 1)).map Nat.succ :=
      List.range_succ_eq_map (ns.length + 1)
    rw [List.length_cons, hr, List.map_cons, List.map_map]
    refine congrArg₂ List.cons (by simp) (List.map_congr_left ?_)
    intro i _
    simp [List.take_succ_cons, Nat.add_assoc]

theorem generateIndexOffsets_eq (lines : List (List Char)) :
    generateIndexOffsets lines =
      (List.range (lineLens lines).length).map
        (fun i => ((lineLens lines).take i).sum) := by
  unfold generateIndexOffsets
  rw [seekGen_eq_map]
  rw [show (lineLens lines).length + 1 = ((lineLens lines).length).succ from rfl,
    List.range_succ, List.map_append]
  simp [List.dropLast_concat]

theorem fileContent_drop (lines : List (List Char)) :
    ∀ i : Nat, (fileContent lines).drop (((lineLens lines).take i).sum) =
      fileContent (lines.drop i) := by
  induction lines with
  | nil =>
    intro i
    simp [fileContent, lineLens]
  | cons l ls ih =>
    intro i
    match i with
    | 0 => simp
    | i + 1 =>
      have hc : fileContent (l :: ls) = (l ++ [NL]) ++ fileContent ls := by
        simp [fileContent]
      have hl : lineLens (l :: ls) = (l.length + 1) :: lineLens ls := rfl
      rw [hc, hl, List.take_succ_cons, List.sum_cons,
        show l.length + 1 = (l ++ [NL]).length by simp,
        List.drop_append, ih i, List.drop_succ_cons]

theorem takeWhile_line {l t : List Char} (h : ∀ c ∈ l, c ≠ NL) :
    (l ++ NL :: t).takeWhile (fun c => c != NL) = l := by
  induction l with
  | nil => simp
  | cons c cs ih =>
    have hc : c ≠ NL := h c (by simp)
    have ihh : ∀ x ∈ cs, x ≠ NL := fun x hx => h x (by simp [hx])
    simp only [List.cons_append, List.takeWhile_cons]
    rw [if_pos (by simp [hc]), ih ihh]

theorem fileContent_cons (l : List Char) (ls : List (List Char)) :
    fileContent (l :: ls) = l ++ NL :: fileContent ls := by
  unfold fileContent
  rw [List.map_cons, List.flatten_cons, List.append_assoc, List.singleton_append]

theorem readLineAt_offset (lines : List (List Char))
    (hwf : ∀ l ∈ lines, ∀ c ∈ l, c ≠ NL) (i : Nat) (h : i < lines.length) :
    readLineAt (fileContent lines) (((lineLens lines).take i).sum) =
      lines.get ⟨i, h⟩ := by
  unfold readLineAt
  rw [fileContent_drop, List.drop_eq_getElem_cons h, fileContent_cons]
  exact takeWhile_line (hwf lines[i] (lines.getElem_mem h))

theorem ofDec_toDigitsAux : ∀ (fuel n : Nat), n ≤ fuel →
    ofDecDigits (toDigitsAux fuel n) = n := by
  intro fuel
  induction fuel with
  | zero =>
    intro n hn
    have : n = 0 := by omega
    subst this
    rfl
  | succ fuel ih =>
    intro n hn
    match n with
    | 0 => rfl
    | n + 1 =>
      have hdiv : (n + 1) / 10 ≤ fuel := by
        have := Nat.div_lt_self (Nat.succ_pos n) (by omega : 1 < 10)
        omega
      rw [toDigitsAux, ofDecDigits, ih ((n + 1) / 10) hdiv]
      exact Nat.mod_add_div (n + 1) 10

theorem toDigitsAux_lt : ∀ (fuel n : Nat), ∀ d ∈ toDigitsAux fuel n, d < 10 := by
  intro fuel
  induction fuel with
  | zero =>
    intro n d hd
    match n with
    | 0 => simp [toDigitsAux] at hd
    | n + 1 => simp [toDigitsAux] at hd
  | succ fuel ih =>
    intro n d hd
    match n with
    | 0 => simp [toDigitsAux] at hd
    | n + 1 =>
      rw [toDigitsAux, List.mem_cons] at hd
      rcases hd with hd | hd
      · subst hd
        exact Nat.mod_lt _ (by omega)
      · exact ih _ d hd

theorem splitSep_no_sep (sep : Nat) (c : List Nat) (h : ∀ b ∈ c, b ≠ sep) :
    splitSep sep c = [c] := by
  induction c with
  | nil => rfl
  | cons b bs ih =>
    have hb : b ≠ sep := h b (by simp)
    have ihh : ∀ x ∈ bs, x ≠ sep := fun x hx => h x (by simp [hx])
    rw [splitSep]
    simp only [if_neg hb, ih ihh]
    rfl

theorem splitSep_append (sep : Nat) (c t : List Nat) (h : ∀ b ∈ c, b ≠ sep) :
    splitSep sep (c ++ sep :: t) = c :: splitSep sep t := by
  induction c with
  | nil =>
    rw [List.nil_append, splitSep]
    simp
  | cons b bs ih =>
    have hb : b ≠ sep := h b (by simp)
    have ihh : ∀ x ∈ bs, x ≠ sep := fun x hx => h x (by simp [hx])
    rw [List.cons_append, splitSep]
    simp only [if_neg hb, ih ihh]
    rfl

theorem splitSep_joinSep (sep : Nat) (chunks : List (List Nat))
    (hne : chunks ≠ []) (h : ∀ c ∈ chunks, ∀ b ∈ c, b ≠ sep) :
    splitSep sep (joinSep sep chunks) = chunks := by
  induction chunks with
  | nil => cases hne rfl
  | cons c cs ih =>
    match cs with
    | [] => exact splitSep_no_sep sep c (h c (by simp))
    | c2 :: cs2 =>
      have hj : joinSep sep (c :: c2 :: cs2) = c ++ sep :: joinSep sep (c2 :: cs2) :=
        rfl
      rw [hj, splitSep_append sep c _ (h c (by simp)),
        ih (by simp) (fun x hx => h x (by simp [hx]))]

theorem readIndex_writeIndex (offsets : List Nat) (hne : offsets ≠ []) :
    readIndex (writeIndex offsets) = some offsets := by
  unfold readIndex writeIndex
  rw [if_pos (by rw [List.isPrefixOf_iff_prefix]; exact List.prefix_append _ _),
    List.drop_left,
    splitSep_joinSep SEP (offsets.map toDecDigits) (by simpa using hne) ?_,
    List.map_map]
  · have : ∀ n ∈ offsets, (ofDecDigits ∘ toDecDigits) n = id n := by
      intro n _
      exact ofDec_toDigitsAux n n le_rfl
    rw [List.map_congr_left this, List.map_id]
  · intro c hc b hb
    obtain ⟨n, _, rfl⟩ := List.mem_map.1 hc
    have := toDigitsAux_lt n n b hb
    unfold SEP
    omega

/-- C7: for a line-oriented file, `generate_index` records one offset per
line — offset 0 first, then the stream position right after each line,
the trailing sentinel discarded — serializing and reloading the index
reproduces the offsets exactly (after the magic-string check), and
seeking to the i-th offset and reading one line recovers the i-th
original line. -/
theorem C7_generate_index (lines : List (List Char))
    (hwf : ∀ l ∈ lines, ∀ c ∈ l, c ≠ NL) (hne : lines ≠ []) :
    (generateIndexOffsets lines).length = lines.length ∧
    (∀ i (h : i < (generateIndexOffsets lines).length),
      (generateIndexOffsets lines).get ⟨i, h⟩ = ((lineLens lines).take i).sum) ∧
    (generateIndexOffsets lines).getD 0 1 = 0 ∧
    readIndex (writeIndex (generateIndexOffsets lines)) =
      some (generateIndexOffsets lines) ∧
    (∀ i (h : i < lines.length) (h2 : i < (generateIndexOffsets lines).length),
      readLineAt (fileContent lines) ((generateIndexOffsets lines).get ⟨i, h2⟩) =
        lines.get ⟨i, h⟩) := by
  have hlen : (generateIndexOffsets lines).length = lines.length := by
    rw [generateIndexOffsets_eq]
    simp [lineLens]
  have hget : ∀ i (h : i < (generateIndexOffsets lines).length),
      (generateIndexOffsets lines).get ⟨i, h⟩ = ((lineLens lines).take i).sum := by
    intro i h
    simp only [generateIndexOffsets_eq, List.get_eq_getElem, List.getElem_map,
      List.getElem_range]
  refine ⟨hlen, hget, ?_, ?_, ?_⟩
  · have h0 : 0 < (generateIndexOffsets lines).length := by
      rw [hlen]
      exact List.length_pos.2 hne
    rw [List.getD_eq_getElem _ _ h0]
    simp only [generateIndexOffsets_eq, List.getElem_map, List.getElem_range]
    simp
  · refine readIndex_writeIndex _ ?_
    intro hempty
    rw [hempty] at hlen
    exact hne (List.length_eq_zero.1 hlen.symm)
  · intro i h h2
    rw [hget i h2]
    exact readLineAt_offset lines hwf i h

/-- Witness for C7: a concrete three-line file; the offsets are 0, 3, 5,
they survive the serialization round-trip, and offset 3 reads back the
second line. -/
theorem C7_witness :
    readIndex (writeIndex (generateIndexOffsets [['a', 'b'], ['c'], ['d', 'e', 'f']])) =
      some (generateIndexOffsets [['a', 'b'], ['c'], ['d', 'e', 'f']]) ∧
    readLineAt (fileContent [['a', 'b'], ['c'], ['d', 'e', 'f']])
      ((generateIndexOffsets [['a', 'b'], ['c'], ['d', 'e', 'f']]).get
        ⟨1, by decide⟩) = ['c'] :=
  ⟨(C7_generate_index [['a', 'b'], ['c'], ['d', 'e', 'f']] (by decide) (by decide)).2.2.2.1,
   (C7_generate_index [['a', 'b'], ['c'], ['d', 'e', 'f']] (by decide) (by decide)).2.2.2.2
     1 (by decide) (by decide)⟩

theorem compareVariants_isSome {a b : Variant}
    (ha : (chromToInt a.chrom).isSome = true)
    (hb : (chromToInt b.chrom).isSome = true) :
    ∃ c, compareVariants a b = some c := by
  obtain ⟨x, hx⟩ := Option.isSome_iff_exists.1 ha
  obtain ⟨y, hy⟩ := Option.isSome_iff_exists.1 hb
  unfold compareVariants
  by_cases hv : Variant.veq a b = true
  · exact ⟨0, by rw [if_pos hv]⟩
  · rw [if_neg hv]
    unfold defaultChrComparator
    rw [hx, hy]
    dsimp only
    repeat' split
    all_goals exact ⟨_, rfl⟩

theorem mergePhases_total :
    ∀ (n phase : Nat) (curA curB : Genotypes) (la lb : List Genotypes),
    3 * (la.length + lb.length) + phase = n →
    phase ≤ 2 →
    (chromToInt curA.variant.chrom).isSome = true →
    (chromToInt curB.variant.chrom).isSome = true →
    (∀ g ∈ la, (chromToInt g.variant.chrom).isSome = true) →
    (∀ g ∈ lb, (chromToInt g.variant.chrom).isSome = true) →
    (mergePhases phase curA curB (la.map some ++ [none])
      (lb.map some ++ [none])).isSome = true := by
  intro n
  induction n using Nat.strong_induction_on with
  | _ n ih =>
    intro phase curA curB la lb hn hp hca hcb hla hlb
    obtain ⟨c, hc⟩ := compareVariants_isSome hca hcb
    unfold mergePhases
    by_cases h2 : phase = 2
    · rw [if_pos h2, hc, Option.some_bind]
      by_cases hm : c = -1
      · rw [if_pos hm]
        cases lb with
        | nil => simp
        | cons b lb' =>
          simp only [List.map_cons, List.cons_append]
          exact ih (3 * (la.length + lb'.length) + 2) (by subst hn h2; simp only [List.length_cons]; omega)
            2 curA b la lb' rfl (by omega) hca (hlb b (by simp)) hla
            (fun g hg => hlb g (by simp [hg]))
      · rw [if_neg hm]
        exact ih (3 * (la.length + lb.length) + 1) (by omega) 1 curA curB la lb
          rfl (by omega) hca hcb hla hlb
    · rw [if_neg h2]
      by_cases h1 : phase = 1
      · rw [if_pos h1, hc, Option.some_bind]
        by_cases hm : c = 1
        · rw [if_pos hm]
          cases la with
          | nil => simp
          | cons a la' =>
            simp only [List.map_cons, List.cons_append]
            exact ih (3 * (la'.length + lb.length) + 1)
              (by subst hn h1; simp only [List.length_cons]; omega)
              1 a curB la' lb rfl (by omega) (hla a (by simp)) hcb
              (fun g hg => hla g (by simp [hg])) hlb
        · rw [if_neg hm]
          exact ih (3 * (la.length + lb.length)) (by omega) 0 curA curB la lb
            rfl (by omega) hca hcb hla hlb
      · rw [if_neg h1]
        by_cases hv : Variant.veq curA.variant curB.variant = true
        · rw [if_pos hv]
          cases la with
          | nil =>
            cases lb with
            | nil => simp
            | cons b lb' => simp
          | cons a la' =>
            cases lb with
            | nil => simp
            | cons b lb' =>
              simp only [List.map_cons, List.cons_append, Option.isSome_map']
              exact ih (3 * (la'.length + lb'.length) + 2)
                (by subst hn; simp only [List.length_cons]; omega)
                2 a b la' lb' rfl (by omega) (hla a (by simp)) (hlb b (by simp))
                (fun g hg => hla g (by simp [hg])) (fun g hg => hlb g (by simp [hg]))
        · rw [if_neg hv]
          cases la with
          | nil => simp
          | cons a la' =>
            simp only [List.map_cons, List.cons_append]
            exact ih (3 * (la'.length + lb.length) + 2)
              (by subst hn; simp only [List.length_cons]; omega)
              2 a curB la' lb rfl (by omega) (hla a (by simp)) hcb
              (fun g hg => hla g (by simp [hg])) hlb

theorem mergePhases_single (g : Genotypes)
    (hveq : Variant.veq g.variant g.variant = true) :
    mergePhases 2 g g [none] [none] = some [(g, g)] := by
  have hcmp : compareVariants g.variant g.variant = some 0 := by
    unfold compareVariants
    rw [if_pos hveq]
  simp [mergePhases, hcmp, hveq]

/-- C8, as stated, fails on the code: with two empty input streams both
channels deliver the sentinel first, the initial
`compare_variants(cur_a.variant, cur_b.variant)` dereferences `None` and
the generator dies with `AttributeError` before the `p.join()` loop runs,
so the workers are not joined. -/
theorem C8_counterexample :
    matchGenotypeIterators ([] : List Genotypes) [] = none := rfl

/-- C8 (amended): for every pair of **non-empty** finite streams whose
records carry chromosomes the comparator can order, the merge loop
terminates cleanly (no exception, so the trailing worker-join loop runs);
and two single-record streams holding one record for the identical,
self-equal variant yield exactly one pair.  For empty streams the first
comparison dereferences the sentinel and the join is skipped. -/
theorem C8_merge_join (sa sb : List Genotypes)
    (ha : sa ≠ []) (hb : sb ≠ [])
    (hva : ∀ g ∈ sa, (chromToInt g.variant.chrom).isSome = true)
    (hvb : ∀ g ∈ sb, (chromToInt g.variant.chrom).isSome = true) :
    (matchGenotypeIterators sa sb).isSome = true ∧
    (∀ g : Genotypes, sa = [g] → sb = [g] →
      Variant.veq g.variant g.variant = true →
      matchGenotypeIterators sa sb = some [(g, g)]) := by
  constructor
  · obtain ⟨a, sa', rfl⟩ := List.exists_cons_of_ne_nil ha
    obtain ⟨b, sb', rfl⟩ := List.exists_cons_of_ne_nil hb
    exact mergePhases_total (3 * (sa'.length + sb'.length) + 2) 2 a b sa' sb'
      rfl (by omega) (hva a (by simp)) (hvb b (by simp))
      (fun g hg => hva g (by simp [hg])) (fun g hg => hvb g (by simp [hg]))
  · intro g hga hgb hveq
    subst hga
    subst hgb
    exact mergePhases_single g hveq

/-- Witness for C8 (amended): two copies of a one-record stream merge
into exactly one pair and the join completes. -/
theorem C8_witness :
    matchGenotypeIterators [sampleGenoAC] [sampleGenoAC] =
      some [(sampleGenoAC, sampleGenoAC)] :=
  (C8_merge_join [sampleGenoAC] [sampleGenoAC] (by simp) (by simp)
    (by intro g hg; rw [List.mem_singleton.1 hg]; decide)
    (by intro g hg; rw [List.mem_singleton.1 hg]; decide)).2
    sampleGenoAC rfl rfl (by decide)

end Geneparse
